import Mathlib

/-!
Verification of the MCP chat client (`client.py`).

The file shallowly embeds the client in Lean:

* the streaming-event loop inside `MCPClient.process_query` (lines 93-125)
  becomes a step function `step_event` and a driver `process_stream` over a
  list of `StreamEvent`s, with explicit state `StreamState`;
* JSON values are abstracted by a type parameter `α`: the external library
  function `json.loads` is modelled by a parameter `parse : String → Option α`
  (`none` models a `json.JSONDecodeError`), and the literal `{}` by a
  parameter `emptyObj : α`;
* the tool-call loop of `process_query` (lines 131-176) becomes
  `run_tool_calls`; the external model API and the tool-provider session are
  oracles passed as function arguments;
* `chat_loop`, `print_streaming_text` and `main` are embedded further below.

Python truthiness tests on strings and lists (`if tool_calls and
current_tool_input:`) are translated as non-emptiness tests.
-/

namespace Client

/-- The type of a content block announced by a `content_block_start` chunk:
either a text block or a `tool_use` block carrying an id and a tool name
(`chunk.content_block.id`, `chunk.content_block.name`). -/
inductive ContentBlock where
  | text : ContentBlock
  | tool_use (id : String) (name : String) : ContentBlock
deriving DecidableEq, Repr

/-- One chunk of the streamed model response, as dispatched on by the
`for chunk in stream` loop of `process_query`.  The two variants of
`content_block_delta` (`text_delta` and `input_json_delta`) are flattened
into two event constructors. -/
inductive StreamEvent where
  | message_start : StreamEvent
  | content_block_start (block : ContentBlock) : StreamEvent
  | text_delta (text : String) : StreamEvent
  | input_json_delta (partial_json : String) : StreamEvent
  | content_block_stop : StreamEvent
  | message_delta : StreamEvent
  | message_stop : StreamEvent
deriving DecidableEq, Repr

/-- An entry of the `tool_calls` list built by the streaming loop:
`{"id": ..., "name": ..., "input": ...}`. -/
structure ToolCall (α : Type) where
  id : String
  name : String
  input : α
deriving DecidableEq, Repr

/-- The mutable local state of the streaming loop of `process_query`:
`accumulated_text`, `tool_calls` and `current_tool_input`. -/
structure StreamState (α : Type) where
  accumulated_text : String
  tool_calls : List (ToolCall α)
  current_tool_input : String
deriving DecidableEq, Repr

/-- The initial loop state (`accumulated_text = ""`, `tool_calls = []`,
`current_tool_input = ""`). -/
def init_stream_state {α : Type} : StreamState α :=
  ⟨"", [], ""⟩

/-- `tool_calls[-1]["input"] = v`: replace the `input` field of the last
element of the list. -/
def set_last_input {α : Type} (v : α) : List (ToolCall α) → List (ToolCall α)
  | [] => []
  | [tc] => [{ tc with input := v }]
  | tc :: tc2 :: rest => tc :: set_last_input v (tc2 :: rest)

/-- One iteration of the `for chunk in stream` loop for every chunk type
except `message_stop` (which `break`s and is handled by `process_stream`).
Returns the new state together with the list of strings handed to
`json.loads` during the step (empty or a singleton), so that theorems can
speak about how often and on what input parsing happens.

`parse` models `json.loads` (`none` = `JSONDecodeError`), `emptyObj`
models the JSON object `{}`. -/
def step_event {α : Type} (parse : String → Option α) (emptyObj : α)
    (s : StreamState α) : StreamEvent → StreamState α × List String
  | .message_start => (s, [])
  | .content_block_start .text => (s, [])
  | .content_block_start (.tool_use id name) =>
      ({ s with
          tool_calls := s.tool_calls ++ [⟨id, name, emptyObj⟩],
          current_tool_input := "" }, [])
  | .text_delta t =>
      ({ s with accumulated_text := s.accumulated_text ++ t }, [])
  | .input_json_delta pj =>
      match s.tool_calls with
      | [] => (s, [])
      | _ :: _ =>
          ({ s with current_tool_input := s.current_tool_input ++ pj }, [])
  | .content_block_stop =>
      match s.tool_calls with
      | [] => ({ s with current_tool_input := "" }, [])
      | _ :: _ =>
          if s.current_tool_input = "" then
            ({ s with current_tool_input := "" }, [])
          else
            ({ s with
                tool_calls :=
                  set_last_input ((parse s.current_tool_input).getD emptyObj)
                    s.tool_calls,
                current_tool_input := "" }, [s.current_tool_input])
  | .message_delta => (s, [])
  | .message_stop => (s, [])

/-- The `for chunk in stream` loop: fold `step_event` over the event list,
stopping (`break`) at the first `message_stop`.  Also collects all strings
passed to `json.loads`, in order. -/
def process_stream {α : Type} (parse : String → Option α) (emptyObj : α) :
    StreamState α → List StreamEvent → StreamState α × List String
  | s, [] => (s, [])
  | s, .message_stop :: _ => (s, [])
  | s, e :: rest =>
      let p1 := step_event parse emptyObj s e
      let p2 := process_stream parse emptyObj p1.1 rest
      (p2.1, p1.2 ++ p2.2)

/-- A conversation message: a `{"role": ..., "content": ...}` dictionary.
Content is the plain string the client puts there. -/
structure Message where
  role : String
  content : String
deriving DecidableEq, Repr

/-- One entry of `available_tools` as built from the `list_tools` response
(lines 67-71): name, description and input schema (the schema is kept
abstract as a string). -/
structure ToolInfo where
  name : String
  description : String
  input_schema : String
deriving DecidableEq, Repr

/-- The externally visible calls the client makes on the model API and the
tool-provider session, in order.  `init_handshake` (the `session.initialize()`
call) and `list_tools` are session calls; `model_call` is
`anthropic.messages.create`; `call_tool` is `session.call_tool`. -/
inductive SessionAction where
  | init_handshake : SessionAction
  | list_tools : SessionAction
  | model_call : SessionAction
  | call_tool (name : String) : SessionAction
deriving DecidableEq, Repr

/-- `true` exactly on `call_tool` actions. -/
def is_call_tool : SessionAction → Bool
  | .call_tool _ => true
  | _ => false

/-- `true` exactly on `model_call` actions. -/
def is_model_call : SessionAction → Bool
  | .model_call => true
  | _ => false

/-- `true` exactly on `list_tools` actions. -/
def is_list_tools : SessionAction → Bool
  | .list_tools => true
  | _ => false

/-- Sequential concatenation of a list of strings (used both for the chunks
accumulated with `+=` and for the writes to stdout). -/
def concat_strs : List String → String
  | [] => ""
  | x :: xs => x ++ concat_strs xs

/-- Python `sep.join(parts)`. -/
def py_join (sep : String) : List String → String
  | [] => ""
  | [x] => x
  | x :: y :: rest => x ++ sep ++ py_join sep (y :: rest)

/-- The text accumulated by the follow-up loop (lines 166-170): the
concatenation of the `text_delta` payloads of the follow-up stream.  This
loop has no `break`: it consumes the whole stream. -/
def follow_up_text (events : List StreamEvent) : String :=
  concat_strs (events.filterMap fun e =>
    match e with
    | .text_delta t => some t
    | _ => none)

/-- The apostrophe character, kept out of string literals. -/
def apostrophe : String := (Char.ofNat 39).toString

/-- The fallback assistant message used when no text was streamed before the
tool call (line 147). -/
def ill_use_msg (name : String) : String :=
  "I" ++ apostrophe ++ "ll use the " ++ name ++ " tool."

/-- Record of one iteration of the tool-call loop: the tool invoked, the
extracted tool result string, the message list sent in the follow-up
`messages.create` request and the text streamed back by it. -/
structure FollowUpRecord where
  tool_name : String
  tool_result : String
  request : List Message
  text : String
deriving DecidableEq, Repr

/-- The `for tool_call in tool_calls` loop of `process_query`
(lines 131-173).  `call_tool` models `session.call_tool` composed with the
extraction of the result text (line 141); `follow_up` models the follow-up
`anthropic.messages.create` stream as a function of the message list sent.
Returns the final message list, the per-iteration records, and the trace of
external calls made. -/
def run_tool_calls {α : Type} (call_tool : String → α → String)
    (follow_up : List Message → List StreamEvent)
    (accumulated_text : String) :
    List Message → List (ToolCall α) →
      List Message × List FollowUpRecord × List SessionAction
  | msgs, [] => (msgs, [], [])
  | msgs, tc :: rest =>
      let tool_result := call_tool tc.name tc.input
      let asst : Message :=
        ⟨"assistant",
          if accumulated_text = "" then ill_use_msg tc.name else accumulated_text⟩
      let msgs1 := msgs ++ [asst, ⟨"user", tool_result⟩]
      let fu := follow_up_text (follow_up msgs1)
      let r := run_tool_calls call_tool follow_up accumulated_text msgs1 rest
      (r.1, ⟨tc.name, tool_result, msgs1, fu⟩ :: r.2.1,
        .call_tool tc.name :: .model_call :: r.2.2)

/-- Everything `process_query` computes: the returned answer string, the
message list sent in the initial model call, the `final_text` list, the
final message list, the per-tool-call records, the trace of external calls,
and the parsed tool calls. -/
structure ProcResult (α : Type) where
  answer : String
  initial_messages : List Message
  final_text : List String
  messages : List Message
  records : List FollowUpRecord
  trace : List SessionAction
  tool_calls : List (ToolCall α)
deriving DecidableEq, Repr

/-- `MCPClient.process_query` (lines 57-176).  External effects are oracles:
`model_stream` is the initial `anthropic.messages.create` stream as a
function of the tool listing and the message list sent; `call_tool` and
`follow_up` are as in `run_tool_calls`.  `tools` is the `list_tools`
response (refreshed at every query, line 66). -/
def process_query {α : Type} (parse : String → Option α) (emptyObj : α)
    (tools : List ToolInfo)
    (model_stream : List ToolInfo → List Message → List StreamEvent)
    (call_tool : String → α → String)
    (follow_up : List Message → List StreamEvent)
    (query : String) : ProcResult α :=
  let messages : List Message := [⟨"user", query⟩]
  let st := (process_stream parse emptyObj init_stream_state
    (model_stream tools messages)).1
  let final0 : List String :=
    if st.accumulated_text = "" then [] else [st.accumulated_text]
  let r := run_tool_calls call_tool follow_up st.accumulated_text messages
    st.tool_calls
  let fu_texts := r.2.1.filterMap fun rec0 =>
    if rec0.text = "" then none else some rec0.text
  let final := final0 ++ fu_texts
  { answer := py_join "\n" final,
    initial_messages := messages,
    final_text := final,
    messages := r.1,
    records := r.2.1,
    trace := [.list_tools, .model_call] ++ r.2.2,
    tool_calls := st.tool_calls }

/-- The session calls made by `connect_to_server` (lines 25-48):
`session.initialize()` then `session.list_tools()`. -/
def connect_trace : List SessionAction :=
  [.init_handshake, .list_tools]

/-- The trace of external calls of a whole session: `connect_to_server`
followed by one `process_query` per query. -/
def session_trace {α : Type} (parse : String → Option α) (emptyObj : α)
    (tools : List ToolInfo)
    (model_stream : List ToolInfo → List Message → List StreamEvent)
    (call_tool : String → α → String)
    (follow_up : List Message → List StreamEvent)
    (queries : List String) : List SessionAction :=
  connect_trace ++ queries.flatMap fun q =>
    (process_query parse emptyObj tools model_stream call_tool follow_up q).trace

/-- The answers of a whole session: each query processed by
`process_query` with the same oracles. -/
def run_session {α : Type} (parse : String → Option α) (emptyObj : α)
    (tools : List ToolInfo)
    (model_stream : List ToolInfo → List Message → List StreamEvent)
    (call_tool : String → α → String)
    (follow_up : List Message → List StreamEvent)
    (queries : List String) : List String :=
  queries.map fun q =>
    (process_query parse emptyObj tools model_stream call_tool follow_up q).answer

/-- Count of `tool_use` `content_block_start` events the streaming loop
processes before a `message_stop` `break`s it. -/
def tool_use_count : List StreamEvent → Nat
  | [] => 0
  | .message_stop :: _ => 0
  | .content_block_start (.tool_use _ _) :: rest => 1 + tool_use_count rest
  | _ :: rest => tool_use_count rest

/-- `MCPClient.print_streaming_text` (lines 50-55): the sequence of strings
written to stdout, one `sys.stdout.write(char)` per character of the input
(the `time.sleep` delay has no effect on the written bytes and is not
modelled). -/
def print_streaming_text (text : String) : List String :=
  text.data.map Char.toString

/-- A raised Python exception: either an instance of `Exception` (what the
`except Exception` clause of `chat_loop` catches) or an exception deriving
only from `BaseException`, such as `KeyboardInterrupt` or `SystemExit`,
which that clause does not catch.  The carried string is `str(e)`. -/
inductive PyExc where
  | exception (msg : String) : PyExc
  | baseException (msg : String) : PyExc
deriving DecidableEq, Repr

/-- `str(e)`. -/
def str_of_exc : PyExc → String
  | .exception m => m
  | .baseException m => m

/-- Python `s.strip()`: drop leading and trailing whitespace. -/
def py_strip (s : String) : String :=
  ⟨((s.data.dropWhile Char.isWhitespace).reverse.dropWhile
      Char.isWhitespace).reverse⟩

/-- Python `s.lower()` (ASCII model, enough for the `quit` comparison). -/
def py_lower (s : String) : String :=
  ⟨s.data.map Char.toLower⟩

/-- How one run of `chat_loop` ends: `quit` for the `break` on the quit
command, `exhausted` when the scripted inputs run out (the real loop would
block on the next `input()`), `raised e` when an exception escapes the
loop. -/
inductive LoopOutcome where
  | quit : LoopOutcome
  | exhausted : LoopOutcome
  | raised (e : PyExc) : LoopOutcome
deriving DecidableEq, Repr

/-- `MCPClient.chat_loop` (lines 178-194).  `reads` scripts the successive
results of `input("\nQuery: ")` (a raised exception or a returned line);
`proc` is the outcome of `self.process_query` on the argument it is given.
Returns the lines printed inside the loop, the list of arguments passed to
`process_query`, and how the loop ended.  The `try` block covers the read,
the quit test and the processing; `except Exception` catches only
`PyExc.exception`. -/
def chat_loop (proc : String → Except PyExc String) :
    List (Except PyExc String) →
      List String × List String × LoopOutcome
  | [] => ([], [], .exhausted)
  | .error (.exception m) :: rest =>
      let r := chat_loop proc rest
      (("\nError: " ++ m) :: r.1, r.2.1, r.2.2)
  | .error (.baseException m) :: _ =>
      ([], [], .raised (.baseException m))
  | .ok raw :: rest =>
      let query := py_strip raw
      if py_lower query = "quit" then ([], [], .quit)
      else
        match proc query with
        | .ok resp =>
            let r := chat_loop proc rest
            (("\n" ++ resp) :: r.1, query :: r.2.1, r.2.2)
        | .error (.exception m) =>
            let r := chat_loop proc rest
            (("\nError: " ++ m) :: r.1, query :: r.2.1, r.2.2)
        | .error (.baseException m) =>
            ([], [query], .raised (.baseException m))

/-- The calls `main` (lines 200-206) makes on the client. -/
inductive MainAction where
  | connect_to_server : MainAction
  | chat_loop_run : MainAction
  | cleanup : MainAction
deriving DecidableEq, Repr

/-- `main` (lines 200-206): `connect_to_server` then `chat_loop` inside
`try`, `cleanup` in the `finally` block.  `connect` and `chat` are the
outcomes of the two awaited calls; the result is the ordered list of calls
made and the outcome of `main` itself (an error is re-raised after the
`finally` block runs). -/
def main_run (connect : Except PyExc Unit) (chat : Except PyExc Unit) :
    List MainAction × Except PyExc Unit :=
  match connect with
  | .error e => ([.connect_to_server, .cleanup], .error e)
  | .ok _ =>
      match chat with
      | .error e => ([.connect_to_server, .chat_loop_run, .cleanup], .error e)
      | .ok _ => ([.connect_to_server, .chat_loop_run, .cleanup], .ok ())

/-! ### Concrete fixtures

Small concrete oracles used to evaluate the embedding on closed inputs:
JSON values are instantiated to `Nat`, `0` standing for the object `{}`. -/

/-- A concrete `json.loads` model: exactly the text `42` parses (to `42`);
everything else raises `JSONDecodeError`. -/
def w_parse : String → Option Nat :=
  fun s => if s = "42" then some 42 else none

/-- A concrete tool listing. -/
def w_tools : List ToolInfo :=
  [⟨"fetch", "fetch a url", "schema"⟩]

/-- A concrete initial model stream with one `tool_use` block whose argument
JSON arrives in two fragments. -/
def w_stream_one : List ToolInfo → List Message → List StreamEvent :=
  fun _ _ =>
    [.message_start,
     .content_block_start (.tool_use "toolu_1" "fetch"),
     .input_json_delta "4", .input_json_delta "2",
     .content_block_stop,
     .message_stop]

/-- A concrete initial model stream with two `tool_use` blocks. -/
def w_stream_two : List ToolInfo → List Message → List StreamEvent :=
  fun _ _ =>
    [.content_block_start (.tool_use "toolu_1" "fetch"),
     .content_block_stop,
     .content_block_start (.tool_use "toolu_2" "fetch"),
     .content_block_stop,
     .message_stop]

/-- A concrete tool-provider: returns a result string built from the tool
name and its argument. -/
def w_call_tool : String → Nat → String :=
  fun n v => n ++ " got " ++ toString v

/-- A concrete follow-up stream: one text chunk. -/
def w_follow_up : List Message → List StreamEvent :=
  fun _ => [.text_delta "done"]

/-- `process_query` evaluated on the one-tool fixture. -/
def w_proc : ProcResult Nat :=
  process_query w_parse 0 w_tools w_stream_one w_call_tool w_follow_up "hi"

/-- A concrete processing oracle for `chat_loop` that always raises an
`Exception`. -/
def w_proc_exc : String → Except PyExc String :=
  fun _ => .error (.exception "boom")

/-- A concrete processing oracle for `chat_loop` that always succeeds. -/
def w_proc_ok : String → Except PyExc String :=
  fun _ => .ok "resp"

/-! ### Helper lemmas about the streaming loop -/

/-- Setting the input of the last element of an appended singleton. -/
theorem set_last_input_append {α : Type} (v : α) (l : List (ToolCall α))
    (tc : ToolCall α) :
    set_last_input v (l ++ [tc]) = l ++ [{ tc with input := v }] := by
  induction l with
  | nil => rfl
  | cons t ts ih =>
    cases ts with
    | nil => rfl
    | cons t2 ts2 => simpa [set_last_input] using ih

/-- `set_last_input` preserves length. -/
theorem set_last_input_length {α : Type} (v : α) (l : List (ToolCall α)) :
    (set_last_input v l).length = l.length := by
  induction l with
  | nil => rfl
  | cons t ts ih =>
    cases ts with
    | nil => rfl
    | cons t2 ts2 => simpa [set_last_input] using ih

/-- Unfolding one non-`message_stop` step of the streaming loop. -/
theorem process_stream_cons {α : Type} (parse : String → Option α) (e : α)
    (s : StreamState α) (ev : StreamEvent) (rest : List StreamEvent)
    (h : ev ≠ .message_stop) :
    process_stream parse e s (ev :: rest) =
      ((process_stream parse e (step_event parse e s ev).1 rest).1,
        (step_event parse e s ev).2 ++
          (process_stream parse e (step_event parse e s ev).1 rest).2) := by
  cases ev with
  | message_stop => exact absurd rfl h
  | message_start => rfl
  | content_block_start block => rfl
  | text_delta t => rfl
  | input_json_delta pj => rfl
  | content_block_stop => rfl
  | message_delta => rfl

/-- The step on every `content_block_stop` resets `current_tool_input`. -/
theorem step_event_stop_buffer {α : Type} (parse : String → Option α) (e : α)
    (s : StreamState α) :
    (step_event parse e s .content_block_stop).1.current_tool_input = "" := by
  rcases s with ⟨acc, tcs, buf⟩
  cases tcs with
  | nil => rfl
  | cons t ts =>
    by_cases hb : buf = "" <;> simp [step_event, hb]

/-- The step on `content_block_stop` with at least one started tool call and
a non-empty buffer hands the buffer to `json.loads`, stores the result (or
`{}` on failure) in the last tool call, and clears the buffer. -/
theorem step_event_stop_parse {α : Type} (parse : String → Option α) (e : α)
    (s : StreamState α) (h : s.tool_calls ≠ []) (hb : s.current_tool_input ≠ "") :
    step_event parse e s .content_block_stop =
      ({ s with
          tool_calls :=
            set_last_input ((parse s.current_tool_input).getD e) s.tool_calls,
          current_tool_input := "" }, [s.current_tool_input]) := by
  rcases s with ⟨acc, tcs, buf⟩
  cases tcs with
  | nil => exact absurd rfl h
  | cons t ts => simp [step_event, hb]

/-- The step on `input_json_delta` with no started tool call discards the
fragment. -/
theorem step_event_delta_discard {α : Type} (parse : String → Option α) (e : α)
    (s : StreamState α) (pj : String) (h : s.tool_calls = []) :
    step_event parse e s (.input_json_delta pj) = (s, []) := by
  rcases s with ⟨acc, tcs, buf⟩
  cases tcs with
  | nil => rfl
  | cons t ts => simp at h

/-- While at least one tool call has started, a run of `input_json_delta`
events appends the concatenation of its fragments, in order, to the buffer
and calls `json.loads` on nothing. -/
theorem process_stream_deltas {α : Type} (parse : String → Option α) (e : α)
    (ds : List String) :
    ∀ (s : StreamState α), s.tool_calls ≠ [] → ∀ rest : List StreamEvent,
      process_stream parse e s (ds.map StreamEvent.input_json_delta ++ rest) =
        process_stream parse e
          { s with current_tool_input := s.current_tool_input ++ concat_strs ds }
          rest := by
  induction ds with
  | nil =>
    intro s hs rest
    simp [concat_strs, String.append_empty]
  | cons d ds ih =>
    intro s hs rest
    rcases s with ⟨acc, tcs, buf⟩
    cases tcs with
    | nil => exact absurd rfl hs
    | cons t ts =>
      rw [List.map_cons, List.cons_append,
        process_stream_cons parse e _ _ _ (by simp)]
      have hstep :
          step_event parse e ⟨acc, t :: ts, buf⟩ (.input_json_delta d) =
            (⟨acc, t :: ts, buf ++ d⟩, []) := rfl
      rw [hstep]
      have hrec := ih ⟨acc, t :: ts, buf ++ d⟩ (by simp) rest
      simp only at hrec
      rw [hrec]
      simp [concat_strs, String.append_assoc]

/-- Processing a complete `tool_use` block (start, argument fragments, stop)
from any state: a new tool call is appended, the fragments are concatenated
in arrival order, `json.loads` is called exactly once, on that
concatenation, its result (or `{}` on failure) becomes the input of the
appended (most recently started) tool call, and the buffer ends empty. -/
theorem process_block {α : Type} (parse : String → Option α) (e : α)
    (s0 : StreamState α) (id name : String) (ds : List String)
    (hne : concat_strs ds ≠ "") :
    process_stream parse e s0
      (StreamEvent.content_block_start (.tool_use id name) ::
        (ds.map StreamEvent.input_json_delta ++ [StreamEvent.content_block_stop])) =
      ({ accumulated_text := s0.accumulated_text,
         tool_calls := s0.tool_calls ++ [⟨id, name, (parse (concat_strs ds)).getD e⟩],
         current_tool_input := "" }, [concat_strs ds]) := by
  rw [process_stream_cons parse e _ _ _ (by simp)]
  have hstart :
      step_event parse e s0 (.content_block_start (.tool_use id name)) =
        ({ s0 with
            tool_calls := s0.tool_calls ++ [⟨id, name, e⟩],
            current_tool_input := "" }, []) := rfl
  rw [hstart]
  rw [process_stream_deltas parse e ds _ (by simp) _]
  simp only [String.empty_append]
  rw [process_stream_cons parse e _ _ _ (by simp)]
  rw [step_event_stop_parse parse e _ (by simp) (by simpa using hne)]
  simp [process_stream, set_last_input_append]

/-- The number of tool calls collected by the streaming loop is the number
of `tool_use` block starts processed before the `message_stop` break. -/
theorem process_stream_tool_calls_length {α : Type} (parse : String → Option α)
    (e : α) :
    ∀ (evs : List StreamEvent) (s : StreamState α),
      ((process_stream parse e s evs).1.tool_calls).length =
        s.tool_calls.length + tool_use_count evs := by
  intro evs
  induction evs with
  | nil => intro s; simp [process_stream, tool_use_count]
  | cons ev rest ih =>
    intro s
    cases ev with
    | message_stop => simp [process_stream, tool_use_count]
    | message_start =>
      rw [process_stream_cons parse e _ _ _ (by simp)]
      simpa [step_event, tool_use_count] using ih s
    | message_delta =>
      rw [process_stream_cons parse e _ _ _ (by simp)]
      simpa [step_event, tool_use_count] using ih s
    | text_delta t =>
      rw [process_stream_cons parse e _ _ _ (by simp)]
      simpa [step_event, tool_use_count] using ih _
    | content_block_start block =>
      cases block with
      | text =>
        rw [process_stream_cons parse e _ _ _ (by simp)]
        simpa [step_event, tool_use_count] using ih s
      | tool_use id name =>
        rw [process_stream_cons parse e _ _ _ (by simp)]
        have := ih { s with
          tool_calls := s.tool_calls ++ [⟨id, name, e⟩],
          current_tool_input := "" }
        simp only [step_event] at this ⊢
        rw [this]
        simp [tool_use_count]
        omega
    | input_json_delta pj =>
      rcases s with ⟨acc, tcs, buf⟩
      cases tcs with
      | nil =>
        rw [process_stream_cons parse e _ _ _ (by simp)]
        rw [step_event_delta_discard parse e _ _ rfl]
        simpa [tool_use_count] using ih ⟨acc, [], buf⟩
      | cons t ts =>
        rw [process_stream_cons parse e _ _ _ (by simp)]
        simpa [step_event, tool_use_count] using ih ⟨acc, t :: ts, buf ++ pj⟩
    | content_block_stop =>
      rcases s with ⟨acc, tcs, buf⟩
      rw [process_stream_cons parse e _ _ _ (by simp)]
      cases tcs with
      | nil => simpa [step_event, tool_use_count] using ih ⟨acc, [], ""⟩
      | cons t ts =>
        by_cases hb : buf = ""
        · subst hb
          simpa [step_event, tool_use_count] using ih ⟨acc, t :: ts, ""⟩
        · rw [step_event_stop_parse parse e _ (by simp) hb]
          have := ih ⟨acc, set_last_input ((parse buf).getD e) (t :: ts), ""⟩
          simp only at this ⊢
          rw [this]
          simp [set_last_input_length, tool_use_count]

/-- The trace of the tool-call loop: one `call_tool` and one follow-up
`model_call` per collected tool call, in list order. -/
theorem run_tool_calls_trace {α : Type} (ct : String → α → String)
    (fu : List Message → List StreamEvent) (at0 : String) :
    ∀ (msgs : List Message) (tcs : List (ToolCall α)),
      (run_tool_calls ct fu at0 msgs tcs).2.2 =
        tcs.flatMap fun tc => [SessionAction.call_tool tc.name, .model_call] := by
  intro msgs tcs
  induction tcs generalizing msgs with
  | nil => simp [run_tool_calls]
  | cons tc rest ih => simp [run_tool_calls, ih]

/-- Counting actions in the per-tool-call trace. -/
theorem countP_tool_trace {α : Type} (tcs : List (ToolCall α)) :
    ((tcs.flatMap fun tc =>
        [SessionAction.call_tool tc.name, .model_call]).countP is_call_tool
      = tcs.length) ∧
    ((tcs.flatMap fun tc =>
        [SessionAction.call_tool tc.name, .model_call]).countP is_model_call
      = tcs.length) ∧
    ((tcs.flatMap fun tc =>
        [SessionAction.call_tool tc.name, .model_call]).countP is_list_tools
      = 0) := by
  induction tcs with
  | nil => simp
  | cons tc rest ih =>
    simp only [List.flatMap_cons, List.countP_append, List.countP_cons,
      List.length_cons, ih.1, ih.2.1, ih.2.2]
    simp [is_call_tool, is_model_call, is_list_tools, List.countP_nil]
    omega

/-- The trace of `process_query`: a `list_tools`, the initial `model_call`,
then one `call_tool` and one `model_call` per collected tool call. -/
theorem process_query_trace_eq {α : Type} (parse : String → Option α) (e : α)
    (tools : List ToolInfo)
    (ms : List ToolInfo → List Message → List StreamEvent)
    (ct : String → α → String) (fu : List Message → List StreamEvent)
    (q : String) :
    (process_query parse e tools ms ct fu q).trace =
      [.list_tools, .model_call] ++
        ((process_query parse e tools ms ct fu q).tool_calls.flatMap
          fun tc => [SessionAction.call_tool tc.name, .model_call]) := by
  simp [process_query, run_tool_calls_trace]

/-- Counting `list_tools` in one query trace. -/
theorem process_query_list_tools_once {α : Type} (parse : String → Option α)
    (e : α) (tools : List ToolInfo)
    (ms : List ToolInfo → List Message → List StreamEvent)
    (ct : String → α → String) (fu : List Message → List StreamEvent)
    (q : String) :
    (process_query parse e tools ms ct fu q).trace.countP is_list_tools = 1 := by
  rw [process_query_trace_eq]
  simp only [List.countP_append,
    (countP_tool_trace (process_query parse e tools ms ct fu q).tool_calls).2.2]
  simp [List.countP_cons, is_list_tools]

/-- Every member of a list of strings is an infix of their Python join. -/
theorem mem_py_join_infix (sep : String) :
    ∀ (l : List String) (s : String), s ∈ l →
      s.data <:+: (py_join sep l).data := by
  intro l
  induction l with
  | nil => intro s hs; simp at hs
  | cons x xs ih =>
    intro s hs
    cases xs with
    | nil =>
      simp only [List.mem_singleton] at hs
      subst hs
      exact ⟨[], [], by simp [py_join]⟩
    | cons y ys =>
      rcases List.mem_cons.mp hs with rfl | hs2
      · refine ⟨[], sep.data ++ (py_join sep (y :: ys)).data, ?_⟩
        simp [py_join, String.data_append]
      · obtain ⟨pre, post, hpp⟩ := ih s hs2
        refine ⟨(x ++ sep).data ++ pre, post, ?_⟩
        simp only [py_join, String.data_append, List.append_assoc]
        rw [← List.append_assoc pre, hpp]

/-- For every tool call handed to the loop there is an iteration record: the
tool result is computed by `session.call_tool`, the conversation is extended
with an assistant message and then a user message carrying that result, and
the follow-up stream is requested on exactly that extended message list. -/
theorem run_tool_calls_record {α : Type} (ct : String → α → String)
    (fu : List Message → List StreamEvent) (at0 : String) :
    ∀ (msgs : List Message) (tcs : List (ToolCall α)) (tc : ToolCall α),
      tc ∈ tcs →
      ∃ rec0 ∈ (run_tool_calls ct fu at0 msgs tcs).2.1,
        rec0.tool_name = tc.name ∧
        rec0.tool_result = ct tc.name tc.input ∧
        (∃ pre : List Message,
          rec0.request = pre ++
            [⟨"assistant",
                if at0 = "" then ill_use_msg tc.name else at0⟩,
              ⟨"user", rec0.tool_result⟩]) ∧
        rec0.text = follow_up_text (fu rec0.request) := by
  intro msgs tcs
  induction tcs generalizing msgs with
  | nil => intro tc htc; simp at htc
  | cons tc0 rest ih =>
    intro tc htc
    rcases List.mem_cons.mp htc with rfl | htc2
    · refine ⟨⟨tc.name, ct tc.name tc.input,
        msgs ++ [⟨"assistant", if at0 = "" then ill_use_msg tc.name else at0⟩,
          ⟨"user", ct tc.name tc.input⟩],
        follow_up_text (fu (msgs ++
          [⟨"assistant", if at0 = "" then ill_use_msg tc.name else at0⟩,
            ⟨"user", ct tc.name tc.input⟩]))⟩, ?_, rfl, rfl, ⟨msgs, rfl⟩, rfl⟩
      simp [run_tool_calls]
    · obtain ⟨rec0, hmem, hprops⟩ :=
        ih (msgs ++
          [⟨"assistant", if at0 = "" then ill_use_msg tc0.name else at0⟩,
            ⟨"user", ct tc0.name tc0.input⟩]) tc htc2
      refine ⟨rec0, ?_, hprops⟩
      simp only [run_tool_calls, List.mem_cons]
      exact Or.inr hmem

/-- Joining the singleton writes of a character list gives back the list. -/
theorem concat_strs_map_toString :
    ∀ l : List Char, concat_strs (l.map Char.toString) = ⟨l⟩ := by
  intro l
  induction l with
  | nil => rfl
  | cons c cs ih => simp only [List.map_cons, concat_strs, ih]; rfl

/-- Every write of `print_streaming_text` has length one. -/
theorem map_toString_all_length_one :
    ∀ l : List Char, (l.map Char.toString).all (fun w => w.length == 1) = true := by
  intro l
  induction l with
  | nil => rfl
  | cons c cs ih => simp [List.all_cons, ih]

/-! ### The claims -/

/-- Claim C1: streaming JSON accumulation is buffer-and-parse-at-boundary.
Processing a `tool_use` block (its `content_block_start`, its
`input_json_delta` fragments `ds`, and the closing `content_block_stop`)
from an arbitrary prior state `s0` appends one tool call; the fragments are
concatenated in arrival order into the single buffer; `json.loads` is called
exactly once (the second component lists its arguments), at the closing
stop, on that concatenation; the parsed object `v` becomes the input of the
most recently started (last) tool call; and the step on every
`content_block_stop` (from any state `t`) resets the buffer to empty. -/
theorem streaming_json_buffer_and_parse {α : Type} (parse : String → Option α)
    (emptyObj : α) (s0 t : StreamState α) (id name : String) (ds : List String)
    (v : α) (hv : parse (concat_strs ds) = some v)
    (hne : concat_strs ds ≠ "") :
    process_stream parse emptyObj s0
      (StreamEvent.content_block_start (.tool_use id name) ::
        (ds.map StreamEvent.input_json_delta ++
          [StreamEvent.content_block_stop])) =
      ({ accumulated_text := s0.accumulated_text,
         tool_calls := s0.tool_calls ++ [⟨id, name, v⟩],
         current_tool_input := "" }, [concat_strs ds]) ∧
    (step_event parse emptyObj t .content_block_stop).1.current_tool_input
      = "" := by
  refine ⟨?_, step_event_stop_buffer parse emptyObj t⟩
  rw [process_block parse emptyObj s0 id name ds hne, hv]
  rfl

/-- Witness for C1: a block whose argument arrives as the fragments `4` and
`2`, parsed once as `42`. -/
theorem streaming_json_buffer_and_parse_witness :
    w_parse (concat_strs ["4", "2"]) = some 42 ∧
    concat_strs ["4", "2"] ≠ "" ∧
    (process_stream w_parse 0 init_stream_state
      (StreamEvent.content_block_start (.tool_use "toolu_1" "fetch") ::
        (["4", "2"].map StreamEvent.input_json_delta ++
          [StreamEvent.content_block_stop])) =
      ({ accumulated_text := "",
         tool_calls := [⟨"toolu_1", "fetch", 42⟩],
         current_tool_input := "" }, [concat_strs ["4", "2"]]) ∧
    (step_event w_parse 0 init_stream_state
      .content_block_stop).1.current_tool_input = "") :=
  ⟨by decide, by decide,
    streaming_json_buffer_and_parse w_parse 0 init_stream_state
      init_stream_state "toolu_1" "fetch" ["4", "2"] 42 (by decide) (by decide)⟩

/-- Claim C9: if the accumulated argument text of a `tool_use` block fails
to parse (`json.loads` raises, modelled by `parse ... = none`), the tool
call keeps the empty object `{}` as input, and the stream loop is total (no
exception propagates: the `except` arm is the `Option.getD` fallback); an
`input_json_delta` arriving while no `tool_use` block has started leaves the
state unchanged and parses nothing. -/
theorem malformed_tool_args_empty_object {α : Type} (parse : String → Option α)
    (emptyObj : α) (s0 t : StreamState α) (id name : String)
    (ds : List String) (pj : String)
    (hnone : parse (concat_strs ds) = none) (hne : concat_strs ds ≠ "")
    (ht : t.tool_calls = []) :
    (process_stream parse emptyObj s0
      (StreamEvent.content_block_start (.tool_use id name) ::
        (ds.map StreamEvent.input_json_delta ++
          [StreamEvent.content_block_stop]))).1.tool_calls =
      s0.tool_calls ++ [⟨id, name, emptyObj⟩] ∧
    step_event parse emptyObj t (.input_json_delta pj) = (t, []) := by
  refine ⟨?_, step_event_delta_discard parse emptyObj t pj ht⟩
  rw [process_block parse emptyObj s0 id name ds hne, hnone]
  rfl

/-- Witness for C9: the fragments `not` and ` json` concatenate to text that
fails to parse; the tool call ends with input `{}` (here `0`). -/
theorem malformed_tool_args_empty_object_witness :
    w_parse (concat_strs ["not", " json"]) = none ∧
    concat_strs ["not", " json"] ≠ "" ∧
    (init_stream_state (α := Nat)).tool_calls = [] ∧
    ((process_stream w_parse 0 init_stream_state
      (StreamEvent.content_block_start (.tool_use "toolu_1" "fetch") ::
        (["not", " json"].map StreamEvent.input_json_delta ++
          [StreamEvent.content_block_stop]))).1.tool_calls =
      [⟨"toolu_1", "fetch", 0⟩] ∧
    step_event w_parse 0 init_stream_state (.input_json_delta "x") =
      (init_stream_state, [])) :=
  ⟨by decide, by decide, rfl,
    malformed_tool_args_empty_object w_parse 0 init_stream_state
      init_stream_state "toolu_1" "fetch" ["not", " json"] "x"
      (by decide) (by decide) rfl⟩

/-- Claim C5: `print_streaming_text` writes exactly the characters of its
input, in order: each write is a single character and their concatenation is
the input text unchanged. -/
theorem print_streaming_text_char_by_char (text : String) :
    concat_strs (print_streaming_text text) = text ∧
    (print_streaming_text text).all (fun w => w.length == 1) = true := by
  refine ⟨?_, map_toString_all_length_one text.data⟩
  rw [print_streaming_text, concat_strs_map_toString]

/-- Claim C2 is false on the code: `process_query` calls
`session.list_tools()` again at the start of every query (line 66), so a
session with one query performs the capability listing twice, not exactly
once. -/
theorem list_tools_not_one_time_cex :
    (session_trace w_parse 0 w_tools w_stream_one w_call_tool w_follow_up
        ["hi"]).countP is_list_tools = 2 ∧
    ¬ (session_trace w_parse 0 w_tools w_stream_one w_call_tool w_follow_up
        ["hi"]).countP is_list_tools = 1 := by
  decide

/-- Claim C2 amended: the capability listing is performed once during the
handshake in `connect_to_server` and once more at the start of every
`process_query`: a session of `n` queries performs it `1 + n` times. -/
theorem list_tools_once_per_connect_and_query {α : Type}
    (parse : String → Option α) (e : α) (tools : List ToolInfo)
    (ms : List ToolInfo → List Message → List StreamEvent)
    (ct : String → α → String) (fu : List Message → List StreamEvent)
    (qs : List String) :
    (session_trace parse e tools ms ct fu qs).countP is_list_tools =
      1 + qs.length := by
  induction qs with
  | nil => simp [session_trace, connect_trace, is_list_tools]
  | cons q rest ih =>
    have h1 := process_query_list_tools_once parse e tools ms ct fu q
    simp only [session_trace, List.flatMap_cons, List.countP_append,
      List.length_cons] at ih ⊢
    omega

/-- Claim C3 is false on the code: the tool-call loop runs over every
collected tool call, so a stream with two `tool_use` blocks makes two
external tool invocations (and three model calls), not at most one. -/
theorem one_tool_per_query_cex :
    (process_query w_parse 0 w_tools w_stream_two w_call_tool w_follow_up
        "hi").trace.countP is_call_tool = 2 ∧
    ¬ (process_query w_parse 0 w_tools w_stream_two w_call_tool w_follow_up
        "hi").trace.countP is_call_tool ≤ 1 ∧
    (process_query w_parse 0 w_tools w_stream_two w_call_tool w_follow_up
        "hi").trace.countP is_model_call = 3 := by
  refine ⟨by decide, by decide, by decide⟩

/-- Claim C3 amended: `process_query` makes one external tool invocation and
one follow-up model call per `tool_use` block of the stream, after the
initial model call and in that order; in particular, when the stream holds
at most one `tool_use` block, at most one tool is invoked and the model is
called at most twice. -/
theorem one_tool_per_tool_use_block {α : Type} (parse : String → Option α)
    (e : α) (tools : List ToolInfo)
    (ms : List ToolInfo → List Message → List StreamEvent)
    (ct : String → α → String) (fu : List Message → List StreamEvent)
    (q : String)
    (h : tool_use_count (ms tools [⟨"user", q⟩]) ≤ 1) :
    (process_query parse e tools ms ct fu q).trace =
      [.list_tools, .model_call] ++
        ((process_query parse e tools ms ct fu q).tool_calls.flatMap
          fun tc => [SessionAction.call_tool tc.name, .model_call]) ∧
    (process_query parse e tools ms ct fu q).trace.countP is_call_tool ≤ 1 ∧
    (process_query parse e tools ms ct fu q).trace.countP is_model_call ≤ 2 := by
  have htrace := process_query_trace_eq parse e tools ms ct fu q
  have hlen :
      (process_query parse e tools ms ct fu q).tool_calls.length =
        tool_use_count (ms tools [⟨"user", q⟩]) := by
    have := process_stream_tool_calls_length parse e
      (ms tools [⟨"user", q⟩]) init_stream_state
    simpa [process_query, init_stream_state] using this
  refine ⟨htrace, ?_, ?_⟩
  · rw [htrace]
    simp only [List.countP_append,
      (countP_tool_trace
        (process_query parse e tools ms ct fu q).tool_calls).1]
    have h2 :
        ([SessionAction.list_tools,
          SessionAction.model_call].countP is_call_tool) = 0 := by decide
    rw [h2, hlen]
    omega
  · rw [htrace]
    simp only [List.countP_append,
      (countP_tool_trace
        (process_query parse e tools ms ct fu q).tool_calls).2.1]
    have h2 :
        ([SessionAction.list_tools,
          SessionAction.model_call].countP is_model_call) = 1 := by decide
    rw [h2, hlen]
    omega

/-- Witness for C3 amended: the one-block fixture makes exactly one tool
call and two model calls. -/
theorem one_tool_per_tool_use_block_witness :
    tool_use_count (w_stream_one w_tools [⟨"user", "hi"⟩]) ≤ 1 ∧
    ((process_query w_parse 0 w_tools w_stream_one w_call_tool w_follow_up
        "hi").trace =
      [.list_tools, .model_call] ++
        ((process_query w_parse 0 w_tools w_stream_one w_call_tool
            w_follow_up "hi").tool_calls.flatMap
          fun tc => [SessionAction.call_tool tc.name, .model_call]) ∧
    (process_query w_parse 0 w_tools w_stream_one w_call_tool w_follow_up
        "hi").trace.countP is_call_tool ≤ 1 ∧
    (process_query w_parse 0 w_tools w_stream_one w_call_tool w_follow_up
        "hi").trace.countP is_model_call ≤ 2) :=
  ⟨by decide,
    one_tool_per_tool_use_block w_parse 0 w_tools w_stream_one w_call_tool
      w_follow_up "hi" (by decide)⟩

/-- On outcomes of the form `raised`, the exception that escapes
`chat_loop` is never an instance of `Exception`: only exceptions deriving
solely from `BaseException` pass the `except Exception` arm. -/
theorem chat_loop_raised_base (proc : String → Except PyExc String) :
    ∀ (reads : List (Except PyExc String)) (ex : PyExc),
      (chat_loop proc reads).2.2 = .raised ex →
      ∃ m2, ex = .baseException m2 := by
  intro reads
  induction reads with
  | nil => intro ex h; simp [chat_loop] at h
  | cons r rest ih =>
    intro ex h
    match r with
    | .error (.exception m) =>
        simp only [chat_loop] at h
        exact ih ex h
    | .error (.baseException m) =>
        simp only [chat_loop] at h
        exact ⟨m, by injection h with h2; exact h2.symm⟩
    | .ok raw =>
        by_cases hq : py_lower (py_strip raw) = "quit"
        · simp [chat_loop, hq] at h
        · cases hp : proc (py_strip raw) with
          | ok resp =>
              simp only [chat_loop, hq, if_neg hq, hp] at h
              exact ih ex h
          | error e =>
              cases e with
              | exception m =>
                  simp only [chat_loop, hq, if_neg hq, hp] at h
                  exact ih ex h
              | baseException m =>
                  simp only [chat_loop, hq, if_neg hq, hp] at h
                  exact ⟨m, by injection h with h2; exact h2.symm⟩

/-- Claim C4: for every tool call executed by `process_query` there is an
iteration record: the tool result (computed by `session.call_tool` on the
tool name and parsed input) is appended to the conversation as a user-role
message preceded by an assistant-role message, the follow-up model request
is made on exactly that extended message list, and the text it streams, when
non-empty, is an element of `final_text` and an infix of the final answer
string returned by `process_query`. -/
theorem tool_result_fed_back {α : Type} (parse : String → Option α) (e : α)
    (tools : List ToolInfo)
    (ms : List ToolInfo → List Message → List StreamEvent)
    (ct : String → α → String) (fu : List Message → List StreamEvent)
    (q : String) (tc : ToolCall α)
    (htc : tc ∈ (process_query parse e tools ms ct fu q).tool_calls) :
    ∃ rec0 ∈ (process_query parse e tools ms ct fu q).records,
      rec0.tool_name = tc.name ∧
      rec0.tool_result = ct tc.name tc.input ∧
      (∃ (pre : List Message) (a : String),
        rec0.request = pre ++
          [⟨"assistant", a⟩, ⟨"user", rec0.tool_result⟩]) ∧
      rec0.text = follow_up_text (fu rec0.request) ∧
      (rec0.text ≠ "" →
        rec0.text ∈ (process_query parse e tools ms ct fu q).final_text ∧
        rec0.text.data <:+:
          (process_query parse e tools ms ct fu q).answer.data) := by
  have hrec :
      (process_query parse e tools ms ct fu q).records =
        (run_tool_calls ct fu
          ((process_stream parse e init_stream_state
            (ms tools [⟨"user", q⟩])).1).accumulated_text
          [⟨"user", q⟩]
          ((process_stream parse e init_stream_state
            (ms tools [⟨"user", q⟩])).1).tool_calls).2.1 := rfl
  have htc0 :
      tc ∈ ((process_stream parse e init_stream_state
        (ms tools [⟨"user", q⟩])).1).tool_calls := htc
  obtain ⟨rec0, hmem, hname, hres, ⟨pre, hpre⟩, htext⟩ :=
    run_tool_calls_record ct fu
      ((process_stream parse e init_stream_state
        (ms tools [⟨"user", q⟩])).1).accumulated_text
      [⟨"user", q⟩] _ tc htc0
  have hmem2 : rec0 ∈ (process_query parse e tools ms ct fu q).records := by
    rw [hrec]; exact hmem
  refine ⟨rec0, hmem2, hname, hres, ⟨pre, _, hpre⟩, htext, ?_⟩
  intro hne
  have hfin : rec0.text ∈ (process_query parse e tools ms ct fu q).final_text := by
    have : rec0.text ∈
        ((process_query parse e tools ms ct fu q).records).filterMap
          fun rec1 => if rec1.text = "" then none else some rec1.text := by
      exact List.mem_filterMap.mpr ⟨rec0, hmem2, by simp [hne]⟩
    have hsplit :
        (process_query parse e tools ms ct fu q).final_text =
          (if ((process_stream parse e init_stream_state
              (ms tools [⟨"user", q⟩])).1).accumulated_text = "" then []
            else [((process_stream parse e init_stream_state
              (ms tools [⟨"user", q⟩])).1).accumulated_text]) ++
            ((process_query parse e tools ms ct fu q).records).filterMap
              (fun rec1 => if rec1.text = "" then none else some rec1.text) := rfl
    rw [hsplit]
    exact List.mem_append.mpr (Or.inr this)
  have hans :
      (process_query parse e tools ms ct fu q).answer =
        py_join "\n" (process_query parse e tools ms ct fu q).final_text := rfl
  refine ⟨hfin, ?_⟩
  rw [hans]
  exact mem_py_join_infix "\n" _ _ hfin

/-- Witness for C4 at the one-tool fixture. -/
theorem tool_result_fed_back_witness :
    (⟨"toolu_1", "fetch", 42⟩ : ToolCall Nat) ∈
      (process_query w_parse 0 w_tools w_stream_one w_call_tool w_follow_up
        "hi").tool_calls ∧
    (∃ rec0 ∈ (process_query w_parse 0 w_tools w_stream_one w_call_tool
        w_follow_up "hi").records,
      rec0.tool_name = (⟨"toolu_1", "fetch", 42⟩ : ToolCall Nat).name ∧
      rec0.tool_result = w_call_tool
        (⟨"toolu_1", "fetch", 42⟩ : ToolCall Nat).name
        (⟨"toolu_1", "fetch", 42⟩ : ToolCall Nat).input ∧
      (∃ (pre : List Message) (a : String),
        rec0.request = pre ++
          [⟨"assistant", a⟩, ⟨"user", rec0.tool_result⟩]) ∧
      rec0.text = follow_up_text (w_follow_up rec0.request) ∧
      (rec0.text ≠ "" →
        rec0.text ∈ (process_query w_parse 0 w_tools w_stream_one
          w_call_tool w_follow_up "hi").final_text ∧
        rec0.text.data <:+:
          (process_query w_parse 0 w_tools w_stream_one w_call_tool
            w_follow_up "hi").answer.data)) :=
  ⟨by decide,
    tool_result_fed_back w_parse 0 w_tools w_stream_one w_call_tool
      w_follow_up "hi" ⟨"toolu_1", "fetch", 42⟩ (by decide)⟩

/-- Claim C6 is false as stated: an exception deriving only from
`BaseException` (for instance `KeyboardInterrupt`, raised by pressing
Ctrl-C at the `input()` prompt) is not caught by the `except Exception` arm
of `chat_loop`: here the loop terminates with the exception escaping and
nothing is printed, while the claim requires an `Error:` print and
continuation for any exception. -/
theorem chat_loop_base_exception_cex :
    chat_loop w_proc_ok [.error (.baseException "KeyboardInterrupt")] =
      ([], [], .raised (.baseException "KeyboardInterrupt")) := by
  rfl

/-- Claim C6 amended: for every iteration of the chat loop, if reading the
query or processing it raises an exception that is an instance of
`Exception`, its message is printed with an `Error:` prefix and the loop
continues with the remaining iterations; an exception deriving only from
`BaseException` escapes the loop, and every exception that escapes the loop
is of that kind (no `Exception`-derived exception escapes). -/
theorem chat_loop_catches_exception_only
    (proc : String → Except PyExc String) (m raw : String)
    (rest reads : List (Except PyExc String)) (ex : PyExc)
    (hq : py_lower (py_strip raw) ≠ "quit")
    (hp : proc (py_strip raw) = .error (.exception m))
    (hr : (chat_loop proc reads).2.2 = .raised ex) :
    chat_loop proc (.error (.exception m) :: rest) =
      (("\nError: " ++ m) :: (chat_loop proc rest).1,
        (chat_loop proc rest).2.1, (chat_loop proc rest).2.2) ∧
    chat_loop proc (.ok raw :: rest) =
      (("\nError: " ++ m) :: (chat_loop proc rest).1,
        py_strip raw :: (chat_loop proc rest).2.1,
        (chat_loop proc rest).2.2) ∧
    ∃ m2, ex = .baseException m2 := by
  refine ⟨rfl, ?_, chat_loop_raised_base proc reads ex hr⟩
  simp [chat_loop, if_neg hq, hp]

/-- Witness for C6 amended: a processing `Exception` is printed and the loop
goes on; the escaping exception of a `KeyboardInterrupt` run is a
`BaseException`. -/
theorem chat_loop_catches_exception_only_witness :
    py_lower (py_strip "  hi  ") ≠ "quit" ∧
    w_proc_exc (py_strip "  hi  ") = .error (.exception "boom") ∧
    (chat_loop w_proc_exc
      [.error (.baseException "KeyboardInterrupt")]).2.2 =
      .raised (.baseException "KeyboardInterrupt") ∧
    (chat_loop w_proc_exc (.error (.exception "boom") :: []) =
      (("\nError: " ++ "boom") :: (chat_loop w_proc_exc []).1,
        (chat_loop w_proc_exc []).2.1, (chat_loop w_proc_exc []).2.2) ∧
    chat_loop w_proc_exc (.ok "  hi  " :: []) =
      (("\nError: " ++ "boom") :: (chat_loop w_proc_exc []).1,
        py_strip "  hi  " :: (chat_loop w_proc_exc []).2.1,
        (chat_loop w_proc_exc []).2.2) ∧
    ∃ m2, PyExc.baseException "KeyboardInterrupt" = .baseException m2) :=
  ⟨by decide, rfl, rfl,
    chat_loop_catches_exception_only w_proc_exc "boom" "  hi  " []
      [.error (.baseException "KeyboardInterrupt")]
      (.baseException "KeyboardInterrupt") (by decide) rfl rfl⟩

/-- Claim C7: the client keeps no conversation state across queries: the
message list sent in the initial model call of `process_query` is exactly
the singleton user message carrying the current query, and in a whole
session the answer to a query is the same whatever queries surround it
(given the same tool listing and the same oracles). -/
theorem no_conversation_state_across_queries {α : Type}
    (parse : String → Option α) (e : α) (tools : List ToolInfo)
    (ms : List ToolInfo → List Message → List StreamEvent)
    (ct : String → α → String) (fu : List Message → List StreamEvent)
    (q : String) (qs1 qs2 : List String) :
    (process_query parse e tools ms ct fu q).initial_messages =
      [⟨"user", q⟩] ∧
    (process_query parse e tools ms ct fu q).initial_messages.length = 1 ∧
    run_session parse e tools ms ct fu (qs1 ++ q :: qs2) =
      run_session parse e tools ms ct fu qs1 ++
        (process_query parse e tools ms ct fu q).answer ::
          run_session parse e tools ms ct fu qs2 := by
  refine ⟨rfl, rfl, ?_⟩
  simp [run_session]

/-- Claim C8 is false in its last part: the argument handed to
`process_query` is the line after `.strip()`, not the input line itself:
for the input line `"  hi  "` the call receives `"hi"` and the raw line is
never passed. -/
theorem chat_loop_passes_stripped_cex :
    (chat_loop w_proc_ok [.ok "  hi  "]).2.1 = ["hi"] ∧
    "  hi  " ∉ (chat_loop w_proc_ok [.ok "  hi  "]).2.1 := by
  decide

/-- Claim C8 amended: a line that strips and lowercases to `quit` breaks the
loop, is not processed, and nothing is printed for it; every other line is
passed to `process_query` in its stripped form. -/
theorem chat_loop_quit_break_and_strip (proc : String → Except PyExc String)
    (raw1 raw2 : String) (rest : List (Except PyExc String))
    (h1 : py_lower (py_strip raw1) = "quit")
    (h2 : py_lower (py_strip raw2) ≠ "quit") :
    chat_loop proc (.ok raw1 :: rest) = ([], [], .quit) ∧
    (chat_loop proc (.ok raw2 :: rest)).2.1.head? = some (py_strip raw2) := by
  constructor
  · simp [chat_loop, h1]
  · cases hp : proc (py_strip raw2) with
    | ok resp => simp [chat_loop, if_neg h2, hp]
    | error e =>
        cases e with
        | exception m => simp [chat_loop, if_neg h2, hp]
        | baseException m => simp [chat_loop, if_neg h2, hp]

/-- Witness for C8 amended: `" QUIT "` quits, `"  hi  "` is processed as
`"hi"`. -/
theorem chat_loop_quit_break_and_strip_witness :
    py_lower (py_strip " QUIT ") = "quit" ∧
    py_lower (py_strip "  hi  ") ≠ "quit" ∧
    (chat_loop w_proc_ok (.ok " QUIT " :: []) = ([], [], .quit) ∧
    (chat_loop w_proc_ok (.ok "  hi  " :: [])).2.1.head? =
      some (py_strip "  hi  ")) :=
  ⟨by decide, by decide,
    chat_loop_quit_break_and_strip w_proc_ok " QUIT " "  hi  " []
      (by decide) (by decide)⟩

/-- Claim C10: whatever the outcomes of `connect_to_server` and
`chat_loop`, `main` always invokes `cleanup`, and as its last action (the
`finally` block runs on the normal path and on both raising paths). -/
theorem cleanup_always_runs (connect chat : Except PyExc Unit) :
    MainAction.cleanup ∈ (main_run connect chat).1 ∧
    (main_run connect chat).1.getLast? = some MainAction.cleanup := by
  cases connect <;> cases chat <;> simp [main_run]

end Client
